import Mathlib

/-!
Verification of the evaluation core of the RAG evaluation framework.

The development shallowly embeds the pure computational core of the
repository's `eval` package:

* `eval/metrics.py` — the metric registry, `compute_metrics` and
  `compute_overall_score`;
* `eval/judges.py` — the judge-API retry wrapper `_call_judge_api` and the
  multi-sample judge loop shared by the four judge functions (embedded once
  as `judge_contextual_precision`, of which the other three are verbatim
  copies modulo prompt construction);
* `eval/reporting.py` — `generate_summary` over a list of persisted records;
* `eval/runner.py` — the per-record loop of `run_eval` followed by summary
  generation.

Python floats are embedded as rationals (`Rat`); Python dicts that preserve
insertion order are embedded as association lists (`List (String × _)`),
with `List.lookup` playing the role of `dict.get`.  Effectful inputs (the
external judge model's replies, the per-record RAG pipeline outcome) are
passed explicitly as data, so that every function is executable.
-/

namespace RagEvalSpec

/-- One metric's result as stored in the per-record `metrics` mapping by
`compute_metrics` (`eval/metrics.py`): a score, a human-readable reason and
the list of individual sample scores. -/
structure MetricResult where
  score : Rat
  reason : String
  samples : List Rat
deriving Repr, DecidableEq

/-- The ordered mapping metric-name ↦ result built by `compute_metrics`. -/
abbrev MetricResults := List (String × MetricResult)

/-- `compute_overall_score` from `eval/metrics.py` (lines 88–97).

```python
if not weights:
    scores = [r["score"] for r in metric_results.values()]
    return sum(scores) / len(scores) if scores else 0.0
weighted = [metric_results[m]["score"] * w for m, w in weights.items() if m in metric_results]
total_weight = sum(w for m, w in weights.items() if m in metric_results)
return sum(weighted) / total_weight if total_weight > 0 else 0.0
```
-/
def compute_overall_score (metric_results : MetricResults) (weights : List (String × Rat)) :
    Rat :=
  if weights.isEmpty then
    let scores := metric_results.map (fun r => r.2.score)
    if scores.isEmpty then 0 else scores.sum / scores.length
  else
    let weighted := weights.filterMap
      (fun p => (metric_results.lookup p.1).map (fun mr => mr.score * p.2))
    let total_weight :=
      ((weights.filter (fun p => (metric_results.lookup p.1).isSome)).map (fun p => p.2)).sum
    if 0 < total_weight then weighted.sum / total_weight else 0

/-- Example metric result with score 0.8 used in the spec's concrete examples. -/
def mr08 : MetricResult := { score := 8/10, reason := "", samples := [] }

/-- Example metric result with score 0.6 used in the spec's concrete examples. -/
def mr06 : MetricResult := { score := 6/10, reason := "", samples := [] }

/-- The spec's example metric-results mapping \x7ba: 0.8, b: 0.6\x7d. -/
def exampleResults : MetricResults := [("a", mr08), ("b", mr06)]

/-- The score stored in `metric_results` for a metric name (0 when absent). -/
def scoreOf (metric_results : MetricResults) (n : String) : Rat :=
  ((metric_results.lookup n).map (fun mr => mr.score)).getD 0

/-- The weight configured for a metric name (0 when absent). -/
def weightOf (weights : List (String × Rat)) (n : String) : Rat :=
  (weights.lookup n).getD 0

/-! ### Association-list lemmas -/

theorem lookup_cons {β : Type} (k a : String) (b : β) (t : List (String × β)) :
    ((a, b) :: t).lookup k = if k = a then some b else t.lookup k := by
  by_cases h : k = a
  · subst h; simp [List.lookup]
  · have hb : (k == a) = false := by simp [h]
    simp [List.lookup, hb, h]

theorem lookup_map_key {β : Type} (f : String → β) (l : List String) (k : String) :
    (l.map (fun a => (a, f a))).lookup k = if k ∈ l then some (f k) else none := by
  induction l with
  | nil => simp [List.lookup]
  | cons a t ih =>
    rw [List.map_cons, lookup_cons]
    by_cases h : k = a
    · subst h; simp
    · simp [h, ih]

theorem lookup_isSome_iff {β : Type} (l : List (String × β)) (k : String) :
    (l.lookup k).isSome = true ↔ k ∈ l.map Prod.fst := by
  induction l with
  | nil => simp [List.lookup]
  | cons p t ih =>
    rcases p with ⟨a, b⟩
    rw [lookup_cons]
    by_cases h : k = a
    · subst h; simp
    · simp [h, ih]

theorem lookup_self_of_nodup {β : Type} {l : List (String × β)}
    (hnd : (l.map Prod.fst).Nodup) {p : String × β} (hp : p ∈ l) :
    l.lookup p.1 = some p.2 := by
  induction l with
  | nil => cases hp
  | cons q t ih =>
    rcases q with ⟨a, b⟩
    simp only [List.map_cons, List.nodup_cons] at hnd
    rw [lookup_cons]
    rcases List.mem_cons.mp hp with h | h
    · subst h; simp
    · have hne : p.1 ≠ a := fun he => hnd.1 (he ▸ List.mem_map_of_mem Prod.fst h)
      rw [if_neg hne]
      exact ih hnd.2 h

/-! ### C1: `compute_overall_score` -/

/-- The code's `weighted` list rewritten through the matched sublist of the
weight mapping. -/
theorem filterMap_weighted_eq (mrs : MetricResults) (ws : List (String × Rat)) :
    ws.filterMap (fun p => (mrs.lookup p.1).map (fun mr => mr.score * p.2)) =
      (ws.filter (fun p => (mrs.lookup p.1).isSome)).map
        (fun p => scoreOf mrs p.1 * p.2) := by
  induction ws with
  | nil => rfl
  | cons p t ih =>
    cases h : mrs.lookup p.1 with
    | none => simp [List.filterMap_cons, List.filter_cons, h, ih]
    | some mr => simp [List.filterMap_cons, List.filter_cons, h, ih, scoreOf]

/-- C1, counterexample: with weights `{c: 1.0}` over metric scores
`{a: 0.8, b: 0.6}` no weight key matches a present metric, and
`compute_overall_score` returns `0.0`, not the unweighted mean `0.7`
claimed by the spec. -/
theorem C1_no_matching_weight_counterexample :
    compute_overall_score exampleResults [("c", 1)] = 0 ∧ (0 : Rat) ≠ 7/10 := by
  constructor
  · simp [compute_overall_score, exampleResults, mr08, mr06, lookup_cons]
  · norm_num

/-- C1 (amended): if no weights are configured, `compute_overall_score`
returns the unweighted arithmetic mean of all present metric scores (0.0 if
none).  Otherwise there is a duplicate-free list `both` of exactly the
metric names present in both the results and the weight mapping, and the
function returns `Σ(score·weight) / Σ(weight)` over `both` when the total
matched weight is positive, and `0.0` when the total matched weight is not
positive — in particular when no configured weight key matches a present
metric.  The spec's two concrete examples hold. -/
theorem C1_overall_score_amended (mrs : MetricResults) (ws : List (String × Rat))
    (h2 : (ws.map Prod.fst).Nodup) :
    (ws = [] →
      compute_overall_score mrs ws =
        if mrs = [] then 0 else (mrs.map (fun r => r.2.score)).sum / mrs.length) ∧
    (ws ≠ [] → ∃ both : List String,
      both.Nodup ∧
      (∀ n, n ∈ both ↔ n ∈ ws.map Prod.fst ∧ n ∈ mrs.map Prod.fst) ∧
      (0 < (both.map (weightOf ws)).sum →
        compute_overall_score mrs ws =
          (both.map (fun n => scoreOf mrs n * weightOf ws n)).sum /
            (both.map (weightOf ws)).sum) ∧
      ((both.map (weightOf ws)).sum ≤ 0 → compute_overall_score mrs ws = 0)) ∧
    compute_overall_score exampleResults [] = 7/10 ∧
    compute_overall_score exampleResults [("a", 1)] = 8/10 := by
  refine ⟨?_, ?_, ?_, ?_⟩
  · intro hws
    subst hws
    by_cases h : mrs = []
    · subst h; simp [compute_overall_score]
    · have hne : (mrs.map (fun r => r.2.score)).isEmpty = false := by
        cases mrs with
        | nil => exact absurd rfl h
        | cons a t => rfl
      simp [compute_overall_score, hne, h]
  · intro hne
    refine ⟨(ws.filter (fun p => (mrs.lookup p.1).isSome)).map Prod.fst, ?_, ?_, ?_⟩
    · exact h2.sublist ((List.filter_sublist ws).map Prod.fst)
    · intro n
      constructor
      · rintro hn
        rcases List.mem_map.mp hn with ⟨p, hp, rfl⟩
        have hf := List.mem_filter.mp hp
        exact ⟨List.mem_map_of_mem Prod.fst hf.1,
          (lookup_isSome_iff mrs p.1).mp hf.2⟩
      · rintro ⟨hw, hm⟩
        rcases List.mem_map.mp hw with ⟨p, hp, rfl⟩
        refine List.mem_map_of_mem Prod.fst (List.mem_filter.mpr ⟨hp, ?_⟩)
        exact (lookup_isSome_iff mrs p.1).mpr hm
    · have hmapw :
          ((ws.filter (fun p => (mrs.lookup p.1).isSome)).map Prod.fst).map (weightOf ws) =
            (ws.filter (fun p => (mrs.lookup p.1).isSome)).map (fun p => p.2) := by
        rw [List.map_map]
        refine List.map_congr_left ?_
        intro p hp
        have hmem : p ∈ ws := (List.mem_filter.mp hp).1
        simp [weightOf, lookup_self_of_nodup h2 hmem]
      have hmaps :
          ((ws.filter (fun p => (mrs.lookup p.1).isSome)).map Prod.fst).map
              (fun n => scoreOf mrs n * weightOf ws n) =
            (ws.filter (fun p => (mrs.lookup p.1).isSome)).map
              (fun p => scoreOf mrs p.1 * p.2) := by
        rw [List.map_map]
        refine List.map_congr_left ?_
        intro p hp
        have hmem : p ∈ ws := (List.mem_filter.mp hp).1
        simp [weightOf, lookup_self_of_nodup h2 hmem]
      rw [hmapw, hmaps]
      have hwne : ws.isEmpty = false := by
        cases ws with
        | nil => exact absurd rfl hne
        | cons a t => rfl
      constructor
      · intro hpos
        simp only [compute_overall_score, hwne, Bool.false_eq_true, if_false,
          filterMap_weighted_eq]
        rw [if_pos hpos]
      · intro hle
        simp only [compute_overall_score, hwne, Bool.false_eq_true, if_false]
        rw [if_neg (not_lt.mpr hle)]
  · simp only [compute_overall_score, exampleResults, mr08, mr06, List.isEmpty_nil,
      List.map_cons, List.map_nil]
    norm_num
  · simp [compute_overall_score, exampleResults, mr08, mr06, lookup_cons]

/-- C1 witness: the amended theorem applied to the spec's concrete example
(`weights = {a: 1.0}` over scores `{a: 0.8, b: 0.6}` gives 0.8). -/
theorem C1_overall_score_amended_witness :
    compute_overall_score exampleResults [("a", 1)] = 8/10 :=
  (C1_overall_score_amended exampleResults [("a", 1)] (by simp)).2.2.2

/-! ### Judges (`eval/judges.py`)

The external model's behaviour on one API attempt is a `JudgeReply`: the
reply body may fail to parse as JSON (`json.JSONDecodeError`), parse but
lack the required `score` field, or be schema-valid, carrying the `score`
JSON value and the optional `verdict` string.  A `score` value that
`float(...)` cannot convert is `ScoreValue.nonNumeric`. -/

/-- The raw `score` field of a parsed judge reply: either a value
convertible by `float(...)` or one that raises `ValueError`/`TypeError`. -/
inductive ScoreValue where
  | num (q : Rat)
  | nonNumeric
deriving Repr, DecidableEq

/-- A parsed, schema-valid judge reply: the `score` field plus the optional
`verdict` field (`result.get("verdict", "")` supplies `""` when absent). -/
structure JudgePayload where
  score : ScoreValue
  verdict : Option String
deriving Repr, DecidableEq

/-- One attempt's outcome of the judge API call, as seen by the retry loop
of `_call_judge_api`. -/
inductive JudgeReply where
  | malformed
  | missingScore
  | ok (payload : JudgePayload)
deriving Repr, DecidableEq

/-- Whether a reply parses as JSON and contains the required `score` field. -/
def isSchemaValid : JudgeReply → Bool
  | .ok _ => true
  | _ => false

/-- `_call_judge_api` from `eval/judges.py` (lines 21–61): up to
`max_retries` (default 3) attempts; each attempt consumes the next external
reply; a schema-valid reply is returned immediately; a malformed reply or a
reply missing `score` moves to the next attempt; after the attempts are
exhausted the function returns `none`. -/
def callJudgeApi : List JudgeReply → Nat → Option JudgePayload
  | _, 0 => none
  | [], _ + 1 => none
  | r :: rest, n + 1 =>
    match r with
    | .ok p => some p
    | _ => callJudgeApi rest n

/-- The payload of the first schema-valid reply in a list, if any. -/
def firstValidPayload : List JudgeReply → Option JudgePayload
  | [] => none
  | .ok p :: _ => some p
  | _ :: rest => firstValidPayload rest

/-- The result dictionary returned by each judge function: score, verdict,
individual samples, and the optional `error` key. -/
structure JudgeResult where
  score : Rat
  verdict : String
  samples : List Rat
  error : Option String
deriving Repr, DecidableEq

/-- `max(0.0, min(1.0, score))` — the clamp applied to each sample. -/
def clamp01 (q : Rat) : Rat := max 0 (min 1 q)

/-- The sampling loop of `judge_contextual_precision` (`eval/judges.py`
lines 128–172), one step per judge sample.  The list argument holds the
per-sample outcomes of `_call_judge_api` (its length is `num_samples`); the
accumulator carries the collected clamped samples and the current verdict,
and `i` is the 0-based index of the current sample (used in the error
message).  `judge_correctness`, `judge_faithfulness` and
`judge_contextual_relevance` share this loop verbatim. -/
def judgeLoop (include_reasoning : Bool) :
    List (Option JudgePayload) → Nat → List Rat → String → JudgeResult
  | [], _, samples, verdict =>
    { score := if samples.isEmpty then 0 else samples.sum / samples.length
      verdict := if include_reasoning then verdict else ""
      samples := samples
      error := none }
  | none :: _, i, _, _ =>
    { score := 0, verdict := "", samples := []
      error := some ("Judge failed to return valid JSON after retries (sample "
        ++ toString (i + 1) ++ ")") }
  | some p :: rest, i, samples, verdict =>
    match p.score with
    | .nonNumeric =>
      { score := 0, verdict := "", samples := []
        error := some "Invalid score format in judge response" }
    | .num q =>
      judgeLoop include_reasoning rest (i + 1) (samples ++ [clamp01 q])
        (if include_reasoning then p.verdict.getD "" else verdict)

/-- `judge_contextual_precision` (`eval/judges.py` lines 64–172), with the
prompt construction and settings loading (pure I/O plumbing that does not
affect scores) abstracted away: the argument list holds the outcome of
`_call_judge_api` for each of the `num_samples` samples. -/
def judge_contextual_precision (invocations : List (Option JudgePayload))
    (include_reasoning : Bool) : JudgeResult :=
  judgeLoop include_reasoning invocations 0 [] ""

/-- A successful sample invocation carrying a numeric raw score and an
optional verdict. -/
def goodInv (p : Rat × Option String) : Option JudgePayload :=
  some { score := ScoreValue.num p.1, verdict := p.2 }

/-- The verdict after folding the sample loop's verdict update over the
samples. -/
def foldVerdict (include_reasoning : Bool) (ps : List (Rat × Option String))
    (v : String) : String :=
  ps.foldl (fun w p => if include_reasoning then p.2.getD "" else w) v

/-- Stepping the judge loop over a block of successful numeric samples:
each sample is clamped and appended, the verdict is updated, and the loop
continues on the remaining invocations. -/
theorem judgeLoop_append (b : Bool) (ps : List (Rat × Option String))
    (tail : List (Option JudgePayload)) (i : Nat) (acc : List Rat) (v : String) :
    judgeLoop b (ps.map goodInv ++ tail) i acc v =
      judgeLoop b tail (i + ps.length) (acc ++ ps.map (fun p => clamp01 p.1))
        (foldVerdict b ps v) := by
  induction ps generalizing i acc v with
  | nil => simp [foldVerdict]
  | cons p t ih =>
    rw [List.map_cons, List.cons_append]
    show judgeLoop b (goodInv p :: (t.map goodInv ++ tail)) i acc v = _
    rw [goodInv, judgeLoop]
    dsimp only
    rw [ih]
    rw [show i + 1 + t.length = i + (t.length + 1) from by omega]
    simp [foldVerdict]

/-! ### C7: retry behaviour of `_call_judge_api` -/

/-- The retry loop returns the first schema-valid payload among the replies
it is allowed to consult. -/
theorem callJudgeApi_eq_firstValid (replies : List JudgeReply) (n : Nat) :
    callJudgeApi replies n = firstValidPayload (replies.take n) := by
  induction replies generalizing n with
  | nil => cases n <;> rfl
  | cons r rest ih =>
    cases n with
    | zero => rfl
    | succ m =>
      cases r with
      | ok p => rfl
      | malformed => simpa [callJudgeApi, firstValidPayload] using ih m
      | missingScore => simpa [callJudgeApi, firstValidPayload] using ih m

/-- `firstValidPayload` is `none` exactly when no reply is schema-valid. -/
theorem firstValidPayload_eq_none_iff (l : List JudgeReply) :
    firstValidPayload l = none ↔ ∀ r ∈ l, isSchemaValid r = false := by
  induction l with
  | nil => simp [firstValidPayload]
  | cons r rest ih =>
    cases r with
    | ok p => simp [firstValidPayload, isSchemaValid]
    | malformed => simp [firstValidPayload, isSchemaValid, ih]
    | missingScore => simp [firstValidPayload, isSchemaValid, ih]

/-- C7: with the default bound of 3 attempts, `_call_judge_api` consults at
most the first 3 external replies and returns the payload of the first
schema-valid one (a reply that parses as JSON and contains `score`)
immediately, with no further attempts; and when at least 3 replies are
available it returns `none` exactly when all 3 consulted replies were
malformed or missing the `score` field. -/
theorem C7_judge_api_retries (replies : List JudgeReply) :
    callJudgeApi replies 3 = firstValidPayload (replies.take 3) ∧
    (3 ≤ replies.length →
      (callJudgeApi replies 3 = none ↔
        ∀ r ∈ replies.take 3, isSchemaValid r = false)) := by
  refine ⟨callJudgeApi_eq_firstValid replies 3, fun _ => ?_⟩
  rw [callJudgeApi_eq_firstValid replies 3]
  exact firstValidPayload_eq_none_iff (replies.take 3)

/-- C7 witness: three bad replies exhaust the attempts and give `none`,
even though a fourth reply would have been valid. -/
theorem C7_judge_api_retries_witness :
    callJudgeApi
      [JudgeReply.malformed, JudgeReply.missingScore, JudgeReply.malformed,
        JudgeReply.ok { score := ScoreValue.num 1, verdict := none }] 3 = none :=
  ((C7_judge_api_retries _).2 (by simp)).mpr (by decide)

/-! ### C4, C5, C9: the sampling loop of the judge functions -/

/-- Evaluation of the judge on a run in which every sample invocation
succeeds with a numeric raw score: every sample is clamped and collected,
the score is the mean of the clamped samples, and no error is reported. -/
theorem judge_allgood (b : Bool) (ps : List (Rat × Option String)) :
    judge_contextual_precision (ps.map goodInv) b =
      { score := if (ps.map (fun p => clamp01 p.1)).isEmpty then 0
          else (ps.map (fun p => clamp01 p.1)).sum / (ps.map (fun p => clamp01 p.1)).length
        verdict := if b then foldVerdict b ps "" else ""
        samples := ps.map (fun p => clamp01 p.1)
        error := none } := by
  rw [judge_contextual_precision, ← List.append_nil (ps.map goodInv), judgeLoop_append]
  simp [judgeLoop]

/-- C4: when all `num_samples` judge invocations succeed, each raw score is
clamped to [0,1] (1.5 is stored as exactly 1, −0.3 as exactly 0), the
stored samples are exactly the clamped raw scores, the returned score is
their arithmetic mean, and no error is present. -/
theorem C4_clamped_mean (ps : List (Rat × Option String)) (b : Bool) (h : ps ≠ []) :
    (judge_contextual_precision (ps.map goodInv) b).samples
        = ps.map (fun p => clamp01 p.1) ∧
    (judge_contextual_precision (ps.map goodInv) b).score
        = (ps.map (fun p => clamp01 p.1)).sum / ps.length ∧
    (judge_contextual_precision (ps.map goodInv) b).error = none ∧
    clamp01 (3/2) = 1 ∧ clamp01 (-(3/10)) = 0 := by
  rw [judge_allgood]
  have hne : (ps.map (fun p => clamp01 p.1)).isEmpty = false := by
    cases ps with
    | nil => exact absurd rfl h
    | cons a t => rfl
  refine ⟨rfl, ?_, rfl, ?_, ?_⟩
  · simp [hne]
  · rw [clamp01]
    rw [min_eq_left (by norm_num : (1:Rat) ≤ 3/2)]
    exact max_eq_right (by norm_num)
  · rw [clamp01]
    rw [min_eq_right (by norm_num : -(3/10) ≤ (1:Rat))]
    exact max_eq_left (by norm_num)

/-- A score already in [0,1] is left unchanged by the clamp. -/
theorem clamp01_of_unit {q : Rat} (h0 : 0 ≤ q) (h1 : q ≤ 1) : clamp01 q = q := by
  rw [clamp01, min_eq_right h1]
  exact max_eq_right h0

/-- C4 witness: `num_samples = 3` with raw judge scores [0.2, 0.4, 0.6]
yields an averaged metric score of exactly 0.4. -/
theorem C4_clamped_mean_witness :
    (judge_contextual_precision
      ([((1:Rat)/5, none), (2/5, none), (3/5, none)].map goodInv) false).score
        = 2/5 := by
  have h := C4_clamped_mean [((1:Rat)/5, none), (2/5, none), (3/5, none)] false
    (List.cons_ne_nil _ _)
  rw [h.2.1]
  simp only [List.map_cons, List.map_nil, List.length_cons, List.length_nil]
  rw [clamp01_of_unit (by norm_num) (by norm_num),
    clamp01_of_unit (by norm_num) (by norm_num),
    clamp01_of_unit (by norm_num) (by norm_num)]
  norm_num

/-- A sample invocation is failing when the retry wrapper returned `none`
or the reply's `score` value is not convertible to a number. -/
def FailingInvocation (o : Option JudgePayload) : Prop :=
  o = none ∨ ∃ v, o = some { score := ScoreValue.nonNumeric, verdict := v }

/-- Whenever the judge result carries an error, its samples list is empty,
its score is 0 and its verdict is empty, regardless of the loop state. -/
theorem judgeLoop_error_shape (b : Bool) (inv : List (Option JudgePayload))
    (i : Nat) (acc : List Rat) (v : String)
    (he : (judgeLoop b inv i acc v).error.isSome = true) :
    (judgeLoop b inv i acc v).samples = [] ∧
    (judgeLoop b inv i acc v).score = 0 ∧
    (judgeLoop b inv i acc v).verdict = "" := by
  induction inv generalizing i acc v with
  | nil => simp [judgeLoop] at he
  | cons o rest ih =>
    cases o with
    | none => exact ⟨rfl, rfl, rfl⟩
    | some p =>
      cases hs : p.score with
      | nonNumeric =>
        rw [judgeLoop, hs] at he ⊢
        exact ⟨rfl, rfl, rfl⟩
      | num q =>
        rw [judgeLoop, hs] at he ⊢
        exact ih _ _ _ he

/-- C5: if any single sample invocation fails (the retry wrapper returned
`none`, or the reply's score is not convertible to a number), the metric
aborts at that sample — the remaining invocations are never consulted —
and returns an error result with score 0, empty verdict and an empty
samples list, never a partial average; and in general an error is mutually
exclusive with a valid score/samples pair. -/
theorem C5_abort_on_failure (pre : List (Rat × Option String))
    (bad : Option JudgePayload) (rest : List (Option JudgePayload)) (b : Bool)
    (h : FailingInvocation bad) :
    (∃ msg, judge_contextual_precision (pre.map goodInv ++ bad :: rest) b =
      { score := 0, verdict := "", samples := [], error := some msg }) ∧
    (∀ (inv : List (Option JudgePayload)) (b' : Bool),
      (judge_contextual_precision inv b').error.isSome = true →
        (judge_contextual_precision inv b').samples = [] ∧
        (judge_contextual_precision inv b').score = 0 ∧
        (judge_contextual_precision inv b').verdict = "") := by
  constructor
  · rw [judge_contextual_precision, judgeLoop_append]
    rcases h with h | ⟨v, h⟩
    · subst h
      exact ⟨_, rfl⟩
    · subst h
      refine ⟨"Invalid score format in judge response", ?_⟩
      rw [judgeLoop]
  · intro inv b' he
    exact judgeLoop_error_shape b' inv 0 [] "" he

/-- C5 witness: one successful sample followed by a failed invocation
yields an error result with empty samples (no partial average over the
first sample). -/
theorem C5_abort_on_failure_witness :
    ∃ msg, judge_contextual_precision ([((1:Rat)/2, none)].map goodInv ++ none :: []) true =
      { score := 0, verdict := "", samples := [], error := some msg } :=
  (C5_abort_on_failure [((1:Rat)/2, none)] none [] true (Or.inl rfl)).1

/-- With reasoning enabled, folding the verdict update over a non-empty
block of successful samples keeps only the last sample's verdict. -/
theorem foldVerdict_true_eq_getLast (ps : List (Rat × Option String))
    (h : ps ≠ []) (v : String) :
    foldVerdict true ps v = ((ps.getLast h).2).getD "" := by
  induction ps generalizing v with
  | nil => exact absurd rfl h
  | cons p t ih =>
    cases t with
    | nil => simp [foldVerdict]
    | cons q u =>
      rw [List.getLast_cons (List.cons_ne_nil q u)]
      rw [← ih (List.cons_ne_nil q u) (p.2.getD "")]
      simp [foldVerdict]

/-- With reasoning disabled the loop's verdict is the empty string on every
path. -/
theorem judgeLoop_false_verdict (inv : List (Option JudgePayload))
    (i : Nat) (acc : List Rat) (v : String) :
    (judgeLoop false inv i acc v).verdict = "" := by
  induction inv generalizing i acc v with
  | nil => rfl
  | cons o rest ih =>
    cases o with
    | none => rfl
    | some p =>
      cases hs : p.score with
      | nonNumeric => rw [judgeLoop, hs]
      | num q =>
        rw [judgeLoop, hs]
        exact ih _ _ _

/-- C9: with reasoning enabled and every sample successful, the returned
verdict is the (possibly defaulted-to-empty) verdict of the last sample —
each later sample's verdict replaces the earlier one — and with reasoning
disabled the returned verdict is the empty string for every run. -/
theorem C9_last_verdict (ps : List (Rat × Option String)) (h : ps ≠ []) :
    (judge_contextual_precision (ps.map goodInv) true).verdict
        = ((ps.getLast h).2).getD "" ∧
    (∀ inv : List (Option JudgePayload),
      (judge_contextual_precision inv false).verdict = "") := by
  constructor
  · rw [judge_allgood]
    simpa using foldVerdict_true_eq_getLast ps h ""
  · intro inv
    exact judgeLoop_false_verdict inv 0 [] ""

/-- C9 witness: two successful samples with verdicts "first" and "last"
return verdict "last". -/
theorem C9_last_verdict_witness :
    (judge_contextual_precision
      ([((1:Rat)/2, some "first"), (1, some "last")].map goodInv) true).verdict
        = "last" := by
  rw [(C9_last_verdict [((1:Rat)/2, some "first"), (1, some "last")]
    (List.cons_ne_nil _ _)).1]
  rfl

/-! ### `compute_metrics` (`eval/metrics.py`, lines 16–85) -/

/-- `DEFAULT_METRICS` from `eval/metrics.py`. -/
def DEFAULT_METRICS : List String :=
  ["contextual_precision", "contextual_relevance", "correctness", "faithfulness"]

/-- The key set of `METRIC_REGISTRY` from `eval/metrics.py`; the judge
function each key maps to is supplied abstractly (`judgeOf`) below. -/
def METRIC_REGISTRY : List String :=
  ["contextual_precision", "contextual_relevance", "correctness", "faithfulness"]

/-- Behaviour of one registered judge function on the record under
evaluation: it either raises an exception or returns a result dictionary. -/
inductive JudgeOutcome where
  | raises (msg : String)
  | returns (r : JudgeResult)

/-- Python `dict` assignment `d[k] = v` on an insertion-ordered
association list: replace in place when the key exists, append otherwise. -/
def dictSet {β : Type} (l : List (String × β)) (k : String) (v : β) :
    List (String × β) :=
  if l.any (fun p => p.1 == k) then
    l.map (fun p => if p.1 == k then (k, v) else p)
  else l ++ [(k, v)]

/-- The entry `compute_metrics` stores for one known metric: on an
exception, score 0 with reason `"Error: ..."`; on a returned error result,
score 0 with reason `"Judge Error: ..."`; otherwise the judge's score,
verdict and samples. -/
def metricEntry (o : JudgeOutcome) : MetricResult :=
  match o with
  | .raises msg => { score := 0, reason := "Error: " ++ msg, samples := [] }
  | .returns r =>
    match r.error with
    | some e => { score := 0, reason := "Judge Error: " ++ e, samples := [] }
    | none => { score := r.score, reason := r.verdict, samples := r.samples }

/-- The per-name loop of `compute_metrics`: unknown names are skipped,
known names store their entry in the results dict. -/
def computeMetricsLoop (judgeOf : String → JudgeOutcome) :
    List String → MetricResults → MetricResults
  | [], results => results
  | name :: rest, results =>
    if METRIC_REGISTRY.contains name then
      computeMetricsLoop judgeOf rest (dictSet results name (metricEntry (judgeOf name)))
    else
      computeMetricsLoop judgeOf rest results

/-- `compute_metrics` from `eval/metrics.py`: `selected_metrics or
DEFAULT_METRICS` treats both `None` and an empty list as "use the default
set", then the loop runs over the selected names. -/
def compute_metrics (judgeOf : String → JudgeOutcome)
    (selected_metrics : Option (List String)) : MetricResults :=
  let selected := match selected_metrics with
    | none => DEFAULT_METRICS
    | some l => if l.isEmpty then DEFAULT_METRICS else l
  computeMetricsLoop judgeOf selected []

/-- Projecting the keys out of a key-indexed map recovers the key list. -/
theorem map_fst_map_pair {β : Type} (f : String → β) (l : List String) :
    (l.map (fun n => (n, f n))).map Prod.fst = l := by
  induction l with
  | nil => rfl
  | cons a t ih => simp [ih]

/-- Assigning a fresh key appends it at the end of the dict. -/
theorem dictSet_append {β : Type} (l : List (String × β)) (k : String) (v : β)
    (h : k ∉ l.map Prod.fst) : dictSet l k v = l ++ [(k, v)] := by
  rw [dictSet, if_neg]
  simp only [List.any_eq_true, not_exists, not_and]
  rintro p hp
  simp only [beq_iff_eq]
  intro he
  exact absurd (he ▸ List.mem_map_of_mem Prod.fst hp) h

/-- Running the metrics loop over duplicate-free fresh names appends, in
order, one entry per known requested name. -/
theorem computeMetricsLoop_eq (judgeOf : String → JudgeOutcome) (l : List String)
    (results : MetricResults) (hnd : l.Nodup)
    (hdisj : ∀ n ∈ l, n ∉ results.map Prod.fst) :
    computeMetricsLoop judgeOf l results =
      results ++ (l.filter (fun n => METRIC_REGISTRY.contains n)).map
        (fun n => (n, metricEntry (judgeOf n))) := by
  induction l generalizing results with
  | nil => simp [computeMetricsLoop]
  | cons name rest ih =>
    rw [List.nodup_cons] at hnd
    by_cases hc : METRIC_REGISTRY.contains name = true
    · rw [computeMetricsLoop, if_pos hc,
        dictSet_append results name _ (hdisj name (List.mem_cons_self name rest))]
      rw [ih (results ++ [(name, metricEntry (judgeOf name))]) hnd.2 ?_]
      · rw [List.filter_cons_of_pos hc, List.map_cons, List.append_assoc]
        rfl
      · intro n hn
        rw [List.map_append]
        simp only [List.mem_append, List.map_cons, List.map_nil, List.mem_singleton]
        rintro (hmem | hmem)
        · exact hdisj n (List.mem_cons_of_mem name hn) hmem
        · exact hnd.1 (hmem ▸ hn)
    · rw [computeMetricsLoop, if_neg hc, ih results hnd.2
        (fun n hn => hdisj n (List.mem_cons_of_mem name hn)),
        List.filter_cons_of_neg (by simpa using hc)]

/-- C6: for a non-empty, duplicate-free selection, the returned mapping
contains exactly the known requested metric names in order (unknown names
are skipped); each known requested metric gets the entry determined by its
own judge outcome alone — so one metric's failure never affects the others
— and both failure shapes (a raised exception and a returned error result)
store score 0 with a non-empty reason string. -/
theorem C6_metric_isolation (judgeOf : String → JudgeOutcome) (l : List String)
    (h1 : l ≠ []) (h2 : l.Nodup) :
    (compute_metrics judgeOf (some l)).map Prod.fst
        = l.filter (fun n => METRIC_REGISTRY.contains n) ∧
    (∀ n ∈ l, METRIC_REGISTRY.contains n = true →
      (compute_metrics judgeOf (some l)).lookup n
          = some (metricEntry (judgeOf n))) ∧
    (∀ msg, (metricEntry (JudgeOutcome.raises msg)).score = 0 ∧
      (metricEntry (JudgeOutcome.raises msg)).reason ≠ "") ∧
    (∀ r e, r.error = some e →
      (metricEntry (JudgeOutcome.returns r)).score = 0 ∧
      (metricEntry (JudgeOutcome.returns r)).reason ≠ "") := by
  have hle : (l.isEmpty) = false := by
    cases l with
    | nil => exact absurd rfl h1
    | cons a t => rfl
  have hcm : compute_metrics judgeOf (some l) =
      (l.filter (fun n => METRIC_REGISTRY.contains n)).map
        (fun n => (n, metricEntry (judgeOf n))) := by
    rw [compute_metrics]
    simp only [hle, Bool.false_eq_true, if_false]
    rw [computeMetricsLoop_eq judgeOf l [] h2 (by simp), List.nil_append]
  refine ⟨?_, ?_, ?_, ?_⟩
  · rw [hcm, map_fst_map_pair]
  · intro n hn hc
    rw [hcm, lookup_map_key]
    rw [if_pos (List.mem_filter.mpr ⟨hn, hc⟩)]
  · intro msg
    refine ⟨rfl, ?_⟩
    intro he
    have := congrArg String.length he
    simp [metricEntry, String.length_append] at this
    exact absurd this.1 (by decide)
  · intro r e herr
    rw [metricEntry, herr]
    refine ⟨rfl, ?_⟩
    intro he
    have := congrArg String.length he
    simp [String.length_append] at this
    exact absurd this.1 (by decide)

/-- A judge behaviour in which every judge returns a fixed valid result. -/
def demoJudge : String → JudgeOutcome :=
  fun _ => JudgeOutcome.returns
    { score := 1/2, verdict := "ok", samples := [1/2], error := none }

/-- C6 witness: requesting one unknown name alongside two known metrics
yields exactly the two known entries, in order. -/
theorem C6_metric_isolation_witness :
    (compute_metrics demoJudge
      (some ["bogus_metric", "correctness", "faithfulness"])).map Prod.fst
        = ["correctness", "faithfulness"] := by
  rw [(C6_metric_isolation demoJudge ["bogus_metric", "correctness", "faithfulness"]
    (List.cons_ne_nil _ _) (by decide)).1]
  rfl

/-- C10: omitting the metric selection (`None`) and passing an empty list
both evaluate the full default metric set: the computed mapping is that of
`DEFAULT_METRICS`, whose four metrics are all known, so the result contains
exactly the four default metrics in order. -/
theorem C10_empty_selection_defaults (judgeOf : String → JudgeOutcome) :
    compute_metrics judgeOf none = compute_metrics judgeOf (some DEFAULT_METRICS) ∧
    compute_metrics judgeOf (some []) = compute_metrics judgeOf (some DEFAULT_METRICS) ∧
    (compute_metrics judgeOf none).map Prod.fst = DEFAULT_METRICS := by
  refine ⟨rfl, rfl, ?_⟩
  have h : compute_metrics judgeOf none =
      computeMetricsLoop judgeOf DEFAULT_METRICS [] := rfl
  rw [h, computeMetricsLoop_eq judgeOf DEFAULT_METRICS [] (by decide) (by simp),
    List.nil_append, map_fst_map_pair]
  decide

/-! ### Reporting (`eval/reporting.py`)

One line of `report.jsonl` is an `EvalRecord`; the fields not consulted by
the summary statistics under verification (contexts, sources, expected
answer, timing and token counters, config snapshot) are omitted.
`heapq.nsmallest(n, xs, key)` is embedded by its documented semantics,
`sorted(xs, key=key)[:n]` with a stable sort (`sortByKey` below is a stable
ascending sort). -/

/-- One persisted record line of `report.jsonl`. -/
structure EvalRecord where
  record_id : String
  question : String
  answer : String
  metrics : MetricResults
  overall_score : Rat
deriving Repr, DecidableEq

/-- `result["metrics"].get(m, {}).get("score", 0.0)`. -/
def metricScoreOf (r : EvalRecord) (m : String) : Rat :=
  ((r.metrics.lookup m).map (fun mr => mr.score)).getD 0

/-- The metric names actually used, read from the first record
(`results[0]["metrics"].keys()`). -/
def metric_names (results : List EvalRecord) : List String :=
  match results with
  | [] => []
  | r :: _ => r.metrics.map Prod.fst

/-- The accumulated `metric_sums[m]` over all records (missing metrics
contribute 0.0). -/
def metricSum (results : List EvalRecord) (m : String) : Rat :=
  (results.map (fun r => metricScoreOf r m)).sum

/-- `TOP_N_WORST` from `eval/reporting.py`. -/
def TOP_N_WORST : Nat := 5

/-- `METRIC_N_WORST` from `eval/reporting.py`. -/
def METRIC_N_WORST : Nat := 3

/-- Stable ascending sort by a rational key — the sort underlying
`heapq.nsmallest` (equal keys keep their original relative order). -/
def sortByKey {α : Type} (key : α → Rat) (l : List α) : List α :=
  List.insertionSort (fun a b => key a ≤ key b) l

/-- `heapq.nsmallest(n, l, key)`: the first `n` elements of the stable
ascending sort of `l` by `key`. -/
def nsmallest {α : Type} (n : Nat) (key : α → Rat) (l : List α) : List α :=
  (sortByKey key l).take n

/-- The summary dictionary assembled by `generate_summary` (restricted to
the statistics under verification; the timing/token averages and the
projection of the selected records onto display fields are omitted). -/
structure Summary where
  total_questions : Nat
  metric_averages : List (String × Rat)
  average_overall_score : Rat
  worst_overall : List EvalRecord
  worst_by_metric : List (String × List EvalRecord)
deriving Repr, DecidableEq

/-- `generate_summary` from `eval/reporting.py` (lines 17–109): raises
`ValueError("No results found")` on an empty record log; otherwise the
metric names come from the first record only, each per-metric average
divides the sum over all records (0.0 for records lacking the metric) by
the total number of records, and the worst lists are stable partial sorts
by ascending score. -/
def generate_summary (results : List EvalRecord) : Except String Summary :=
  if results.isEmpty then Except.error "No results found"
  else Except.ok
    { total_questions := results.length
      metric_averages := (metric_names results).map
        (fun m => (m, metricSum results m / results.length))
      average_overall_score :=
        (results.map (fun r => r.overall_score)).sum / results.length
      worst_overall := nsmallest TOP_N_WORST (fun r => r.overall_score) results
      worst_by_metric := (metric_names results).map
        (fun m => (m, nsmallest METRIC_N_WORST (fun r => metricScoreOf r m) results)) }

/-- The `metric_averages` field of a summary computation (empty on error). -/
def summaryMetricAverages (e : Except String Summary) : List (String × Rat) :=
  match e with
  | .ok s => s.metric_averages
  | .error _ => []

/-! ### C2: per-metric averages -/

/-- A record whose only metric is `a` with score 1. -/
def rec1 : EvalRecord :=
  { record_id := "r1", question := "q1", answer := "ans1"
    metrics := [("a", { score := 1, reason := "", samples := [] })]
    overall_score := 1 }

/-- A record whose only metric is `b` (metric `a` is absent). -/
def rec2 : EvalRecord :=
  { record_id := "r2", question := "q2", answer := "ans2"
    metrics := [("b", { score := 1, reason := "", samples := [] })]
    overall_score := 0 }

/-- C2, counterexample: over the two-record log `[rec1, rec2]`, metric `a`
is present only in the first record with score 1, so the claim's average
is 1; the code instead counts the lacking record as 0.0 and divides by the
total record count, giving 0.5.  Metric `b`, present only in the second
record, receives no per-metric average at all. -/
theorem C2_missing_metric_counterexample :
    summaryMetricAverages (generate_summary [rec1, rec2]) = [("a", 1/2)] ∧
    ((1:Rat)/2 ≠ 1) ∧
    (summaryMetricAverages (generate_summary [rec1, rec2])).lookup "b" = none := by
  have h : summaryMetricAverages (generate_summary [rec1, rec2]) = [("a", 1/2)] := by
    simp only [generate_summary, summaryMetricAverages, metric_names, metricSum,
      metricScoreOf, rec1, rec2, List.isEmpty_cons, Bool.false_eq_true, if_false,
      List.map_cons, List.map_nil, lookup_cons]
    norm_num [lookup_cons]
    rw [if_neg (show ¬("a":String) = "b" from by decide)]
    norm_num
  refine ⟨h, by norm_num, ?_⟩
  rw [h, lookup_cons, if_neg (by decide)]
  rfl

/-- C2 (amended): for every non-empty record log, the summary succeeds and
carries a per-metric average for exactly the metrics of the *first* record;
each such average is the sum of that metric's score over *all* records —
with records lacking the metric contributing 0.0 — divided by the total
number of records.  Metrics absent from the first record get no average,
even when present in later records. -/
theorem C2_first_record_averages (r0 : EvalRecord) (rest : List EvalRecord) :
    ∃ s, generate_summary (r0 :: rest) = Except.ok s ∧
      (∀ m ∈ r0.metrics.map Prod.fst,
        s.metric_averages.lookup m =
          some (((r0 :: rest).map (fun r => metricScoreOf r m)).sum /
            ((r0 :: rest).length : Rat))) ∧
      (∀ m, m ∉ r0.metrics.map Prod.fst → s.metric_averages.lookup m = none) := by
  refine ⟨_, by rw [generate_summary, if_neg (by simp)], ?_, ?_⟩
  · intro m hm
    show ((metric_names (r0 :: rest)).map
      (fun m => (m, metricSum (r0 :: rest) m / (r0 :: rest).length))).lookup m = _
    rw [lookup_map_key, if_pos (by simpa [metric_names] using hm)]
    rfl
  · intro m hm
    show ((metric_names (r0 :: rest)).map
      (fun m => (m, metricSum (r0 :: rest) m / (r0 :: rest).length))).lookup m = none
    rw [lookup_map_key, if_neg (by simpa [metric_names] using hm)]

/-- C2 witness: the amended theorem applied to the two-record log, giving
metric `a` the average (1 + 0)/2 = 0.5. -/
theorem C2_first_record_averages_witness :
    ∃ s, generate_summary [rec1, rec2] = Except.ok s ∧
      s.metric_averages.lookup "a" = some (1/2) := by
  obtain ⟨s, hs, h1, h2⟩ := C2_first_record_averages rec1 [rec2]
  refine ⟨s, hs, ?_⟩
  rw [h1 "a" (by decide)]
  norm_num [metricScoreOf, rec1, rec2, lookup_cons]
  rw [if_neg (show ¬("a":String) = "b" from by decide)]
  norm_num

/-! ### C8: stable worst-N selection -/

/-- The stable ascending sort is sorted with respect to its key. -/
theorem sortByKey_sorted {α : Type} (key : α → Rat) (l : List α) :
    List.Sorted (fun a b => key a ≤ key b) (sortByKey key l) := by
  haveI : IsTotal α (fun a b => key a ≤ key b) := ⟨fun a b => le_total _ _⟩
  haveI : IsTrans α (fun a b => key a ≤ key b) :=
    ⟨fun _ _ _ hab hbc => le_trans hab hbc⟩
  exact List.sorted_insertionSort _ l

/-- The stable ascending sort is a permutation of its input. -/
theorem sortByKey_perm {α : Type} (key : α → Rat) (l : List α) :
    List.Perm (sortByKey key l) l :=
  List.perm_insertionSort _ l

/-- The stable ascending sort preserves length. -/
theorem sortByKey_length {α : Type} (key : α → Rat) (l : List α) :
    (sortByKey key l).length = l.length :=
  (sortByKey_perm key l).length_eq

/-- Inserting an element into a list keeps the sequence of elements with
any fixed key value intact, with the inserted element, when its key
matches, placed before all of them. -/
theorem filter_key_orderedInsert {α : Type} (key : α → Rat) (q : Rat) (a : α)
    (l : List α) :
    (List.orderedInsert (fun x y => key x ≤ key y) a l).filter
        (fun x => decide (key x = q)) =
      if key a = q then a :: l.filter (fun x => decide (key x = q))
      else l.filter (fun x => decide (key x = q)) := by
  induction l with
  | nil =>
    by_cases h : key a = q <;> simp [List.orderedInsert, h]
  | cons b t ih =>
    by_cases hab : key a ≤ key b
    · simp only [List.orderedInsert, if_pos hab]
      by_cases ha : key a = q <;> by_cases hb : key b = q <;>
        simp [List.filter_cons, ha, hb]
    · have hba : key b < key a := not_le.mp hab
      simp only [List.orderedInsert, if_neg hab, List.filter_cons, ih]
      by_cases ha : key a = q
      · have hb : ¬ key b = q := by
          intro hq
          rw [ha] at hba
          rw [hq] at hba
          exact lt_irrefl q hba
        simp [ha, hb]
      · by_cases hb : key b = q <;> simp [ha, hb]

/-- Stability of the sort underlying `nsmallest`: for every key value `q`,
the elements with key `q` appear in the sorted list in exactly their
original relative order. -/
theorem filter_key_sortByKey {α : Type} (key : α → Rat) (q : Rat) (l : List α) :
    (sortByKey key l).filter (fun x => decide (key x = q)) =
      l.filter (fun x => decide (key x = q)) := by
  induction l with
  | nil => rfl
  | cons a t ih =>
    show (List.orderedInsert _ a (List.insertionSort _ t)).filter _ = _
    rw [filter_key_orderedInsert]
    by_cases ha : key a = q
    · rw [if_pos ha]
      rw [show List.insertionSort (fun x y => key x ≤ key y) t = sortByKey key t
        from rfl, ih]
      simp [List.filter_cons, ha]
    · rw [if_neg ha,
        show List.insertionSort (fun x y => key x ≤ key y) t = sortByKey key t
          from rfl, ih]
      simp [List.filter_cons, ha]

/-- The worst-N selection is ascending in its key. -/
theorem nsmallest_sorted {α : Type} (n : Nat) (key : α → Rat) (l : List α) :
    List.Sorted (fun a b => key a ≤ key b) (nsmallest n key l) :=
  List.Pairwise.sublist (List.take_sublist n _) (sortByKey_sorted key l)

/-- The worst-N selection has `min n l.length` elements — in particular all
of them when the log has at most `n` records. -/
theorem nsmallest_length {α : Type} (n : Nat) (key : α → Rat) (l : List α) :
    (nsmallest n key l).length = min n l.length := by
  rw [nsmallest, List.length_take, sortByKey_length]

/-- The worst-N selection takes its records from the log. -/
theorem nsmallest_subperm {α : Type} (n : Nat) (key : α → Rat) (l : List α) :
    (nsmallest n key l).Subperm l :=
  ((List.take_sublist n _).subperm).trans (sortByKey_perm key l).subperm

/-- Every selected record's key is at most every unselected record's key. -/
theorem nsmallest_le_drop {α : Type} (n : Nat) (key : α → Rat) (l : List α) :
    ∀ a ∈ nsmallest n key l, ∀ b ∈ (sortByKey key l).drop n, key a ≤ key b :=
  fun _ ha _ hb => (sortByKey_sorted key l).rel_of_mem_take_of_mem_drop ha hb

/-- C8: for every non-empty record log, the summary's `worst_overall` is
the stable partial sort `nsmallest TOP_N_WORST` by ascending overall score:
it is ascending, has `min 5 N` records all drawn from the log, every
selected record scores no higher than every unselected one, and ties keep
the original record order (stability).  Independently, for each metric of
the log, `worst_by_metric` holds the `nsmallest METRIC_N_WORST` records by
ascending score of that metric, with the same ordering guarantees. -/
theorem C8_worst_records (results : List EvalRecord) (h : results ≠ []) :
    ∃ s, generate_summary results = Except.ok s ∧
      s.worst_overall = nsmallest TOP_N_WORST (fun r => r.overall_score) results ∧
      List.Sorted (fun a b => a.overall_score ≤ b.overall_score) s.worst_overall ∧
      s.worst_overall.length = min TOP_N_WORST results.length ∧
      s.worst_overall.Subperm results ∧
      (∀ a ∈ s.worst_overall,
        ∀ b ∈ (sortByKey (fun r => r.overall_score) results).drop TOP_N_WORST,
          a.overall_score ≤ b.overall_score) ∧
      (∀ q : Rat,
        (sortByKey (fun r => r.overall_score) results).filter
            (fun x => decide (x.overall_score = q)) =
          results.filter (fun x => decide (x.overall_score = q))) ∧
      (∀ m ∈ metric_names results,
        s.worst_by_metric.lookup m =
          some (nsmallest METRIC_N_WORST (fun r => metricScoreOf r m) results) ∧
        List.Sorted (fun a b => metricScoreOf a m ≤ metricScoreOf b m)
          (nsmallest METRIC_N_WORST (fun r => metricScoreOf r m) results) ∧
        (nsmallest METRIC_N_WORST (fun r => metricScoreOf r m) results).length =
          min METRIC_N_WORST results.length ∧
        (∀ q : Rat,
          (sortByKey (fun r => metricScoreOf r m) results).filter
              (fun x => decide (metricScoreOf x m = q)) =
            results.filter (fun x => decide (metricScoreOf x m = q)))) := by
  have hie : results.isEmpty = false := by
    cases results with
    | nil => exact absurd rfl h
    | cons a t => rfl
  refine ⟨{ total_questions := results.length
            metric_averages := (metric_names results).map
              (fun m => (m, metricSum results m / results.length))
            average_overall_score :=
              (results.map (fun r => r.overall_score)).sum / results.length
            worst_overall := nsmallest TOP_N_WORST (fun r => r.overall_score) results
            worst_by_metric := (metric_names results).map
              (fun m => (m, nsmallest METRIC_N_WORST (fun r => metricScoreOf r m) results)) },
    ?_, rfl, nsmallest_sorted _ _ _, nsmallest_length _ _ _,
    nsmallest_subperm _ _ _, nsmallest_le_drop _ _ _,
    fun q => filter_key_sortByKey _ q results, ?_⟩
  · simp only [generate_summary, hie, Bool.false_eq_true, if_false]
  · intro m hm
    refine ⟨?_, nsmallest_sorted _ _ _, nsmallest_length _ _ _,
      fun q => filter_key_sortByKey _ q results⟩
    show ((metric_names results).map
      (fun m => (m, nsmallest METRIC_N_WORST (fun r => metricScoreOf r m) results))).lookup m = _
    rw [lookup_map_key, if_pos hm]

/-- A third record with overall score 2, used in the C8 witness. -/
def rec3 : EvalRecord :=
  { record_id := "r3", question := "q3", answer := "ans3"
    metrics := [("a", { score := 2, reason := "", samples := [] })]
    overall_score := 2 }

/-- C8 witness: over the 3-record log with overall scores 1, 0, 2 the
worst-overall selection with N = 5 returns all 3 records, sorted ascending
by overall score. -/
theorem C8_worst_records_witness :
    ∃ s, generate_summary [rec1, rec2, rec3] = Except.ok s ∧
      s.worst_overall = [rec2, rec1, rec3] ∧ s.worst_overall.length = 3 := by
  obtain ⟨s, hs, heq, _, hlen, _⟩ :=
    C8_worst_records [rec1, rec2, rec3] (List.cons_ne_nil _ _)
  refine ⟨s, hs, ?_, ?_⟩
  · rw [heq]
    decide
  · rw [hlen]
    rfl

/-! ### Runner (`eval/runner.py`)

The per-record loop of `run_eval` (lines 94–145): for each dataset record
the RAG pipeline and metric computation either produce a record line
(`some rec`, appended to `report.jsonl`) or raise an unexpected exception
(`none`, logged and skipped).  After the loop `generate_summary` runs on
the persisted log; the surrounding API task marks the run `completed` when
`run_eval` returns normally and `error` when it raises, which the `Except`
result models. -/

/-- The record loop: successful outcomes append their line to the log,
failing outcomes are skipped and the loop continues. -/
def processLoop : List (Option EvalRecord) → List EvalRecord → List EvalRecord
  | [], file => file
  | some rec :: rest, file => processLoop rest (file ++ [rec])
  | none :: rest, file => processLoop rest file

/-- `run_eval`'s record loop followed by summary generation over the
persisted log. -/
def run_eval (outcomes : List (Option EvalRecord)) : Except String Summary :=
  generate_summary (processLoop outcomes [])

/-- Whether the run returns normally (`completed`) rather than raising
(`error`). -/
def exceptIsOk {ε β : Type} : Except ε β → Bool
  | .ok _ => true
  | .error _ => false

/-- The record loop appends exactly the successful outcomes, in order. -/
theorem processLoop_eq_filterMap (outcomes : List (Option EvalRecord))
    (file : List EvalRecord) :
    processLoop outcomes file = file ++ outcomes.filterMap id := by
  induction outcomes generalizing file with
  | nil => simp [processLoop]
  | cons o rest ih =>
    cases o with
    | some rec => rw [processLoop, ih, List.append_assoc]; rfl
    | none => rw [processLoop, ih]; rfl

/-- C3, counterexample: when every record of the dataset fails (here: a
one-record dataset whose single record fails), no line is persisted,
summary generation raises `No results found`, and the run does *not*
transition to completed. -/
theorem C3_all_fail_counterexample :
    run_eval [none] = Except.error "No results found" ∧
    exceptIsOk (run_eval [none]) = false :=
  ⟨rfl, rfl⟩

/-- C3 (amended): record-processing failures are skipped and never fatal —
the persisted log is exactly the successful records, in dataset order —
and after all records are attempted the summary generator runs on the
persisted log; the run transitions to completed exactly when at least one
record line was persisted, and errors (rather than completing) in the
boundary case in which every record failed. -/
theorem C3_skip_and_summarize (outcomes : List (Option EvalRecord)) :
    processLoop outcomes [] = outcomes.filterMap id ∧
    run_eval outcomes = generate_summary (outcomes.filterMap id) ∧
    exceptIsOk (run_eval outcomes) = !(outcomes.filterMap id).isEmpty := by
  have h1 : processLoop outcomes [] = outcomes.filterMap id := by
    rw [processLoop_eq_filterMap, List.nil_append]
  have h2 : run_eval outcomes = generate_summary (outcomes.filterMap id) := by
    rw [run_eval, h1]
  refine ⟨h1, h2, ?_⟩
  rw [h2]
  cases hfm : (outcomes.filterMap id) with
  | nil => rfl
  | cons r rest => rfl

end RagEvalSpec
